import Mathlib

/-!
Verification of the EPG processing script (`scripts/process_epg.py`).

The script downloads two XMLTV documents, rewrites programme timestamps
into the Asia/Shanghai offset (`convert_timezone`), merges the two
documents into one (`merge_epg_data`), and writes plain and gzipped
artifacts (`save_epg_data`).  The development below is a shallow
embedding of that code: XML element trees become an inductive `Element`,
the ElementTree library operations used by the script (`fromstring`,
`findall`, `get`/`set`, `append`) become Lean functions with the same
behaviour, and Python `datetime`/`pytz` timestamp handling becomes
explicit arithmetic on a `DateTime` record.

Modelling conventions:
* `EpgInput` couples a raw document string with the outcome that
  `xml.etree.ElementTree.fromstring` produces on it (`some` tree for
  well-formed XML, `none` for a `ParseError`).
* The `pytz.timezone('Asia/Shanghai')` target is modelled as the fixed
  UTC+08:00 offset it has had since 1991 (no DST); `%z` on such a value
  renders as `+0800`.
* Python's `datetime.strptime(s, '%Y%m%d%H%M%S')` is modelled for the
  canonical zero-padded form: exactly 14 ASCII digits whose fields are
  in range (4-digit year 0001-9999, month 01-12, valid day of month,
  hour 00-23, minute/second 00-59); anything else raises, i.e. `none`.
* Exceptions caught by the script's `try/except` blocks are modelled as
  `Option`/outcome values; `print` diagnostics become Boolean "reported"
  flags.
-/

/-- An XML element as handled by `xml.etree.ElementTree`: a tag, an
ordered attribute dictionary, and an ordered list of child elements. -/
inductive Element where
  | mk (tag : String) (attrs : List (String × String)) (children : List Element)

def Element.tag : Element → String
  | .mk t _ _ => t

def Element.attrs : Element → List (String × String)
  | .mk _ a _ => a

def Element.children : Element → List Element
  | .mk _ _ c => c

/-- `element.get(k)`: first value bound to attribute `k`. -/
def getAttr (e : Element) (k : String) : Option String :=
  (e.attrs.find? (fun p => p.1 = k)).map (fun p => p.2)

/-- `element.set(k, v)` on an attribute dictionary: replace the binding
of `k` in place if present, otherwise append it. -/
def setAttrList (a : List (String × String)) (k v : String) : List (String × String) :=
  if a.any (fun p => p.1 = k) then
    a.map (fun p => if p.1 = k then (k, v) else p)
  else
    a ++ [(k, v)]

def setAttr (e : Element) (k v : String) : Element :=
  .mk e.tag (setAttrList e.attrs k v) e.children

mutual

/-- All elements with tag `tg` in the subtree rooted at `e`, `e`
included, in document (preorder) order. -/
def findallAux (tg : String) : Element → List Element
  | .mk t a c => (if t = tg then [Element.mk t a c] else []) ++ findallAuxL tg c

def findallAuxL (tg : String) : List Element → List Element
  | [] => []
  | e :: es => findallAux tg e ++ findallAuxL tg es

end

/-- `root.findall('.//tg')`: all proper descendants of `root` whose tag
is `tg`, in document order. -/
def findall (tg : String) (root : Element) : List Element :=
  findallAuxL tg root.children

mutual

/-- `e` and all its descendants carry neither the tag `channel` nor the
tag `programme` (the "opaque content" shape the spec gives to channel
and programme children). -/
def cleanElem : Element → Bool
  | .mk t _ c => (t ≠ "channel" && t ≠ "programme") && cleanL c

def cleanL : List Element → Bool
  | [] => true
  | e :: es => cleanElem e && cleanL es

end

/-- All strict descendants of `e` are clean, whatever `e` itself is. -/
def cleanBelow (e : Element) : Bool :=
  cleanL e.children

/-- The spec's well-formed EPG document shape: every root child is a
`channel` or a `programme` element, and the contents of those elements
are opaque (no nested `channel`/`programme` tags). -/
def wellFormed (root : Element) : Bool :=
  root.children.all (fun x => (x.tag = "channel" || x.tag = "programme") && cleanBelow x)

/-- A raw document string together with the result of
`ET.fromstring` on it: `some` root for well-formed XML, `none` when the
library raises `ParseError`. -/
structure EpgInput where
  raw : String
  parsed : Option Element

/-- A naive wall-clock timestamp, as produced by
`datetime.strptime(s, '%Y%m%d%H%M%S')`. -/
structure DateTime where
  year : Nat
  month : Nat
  day : Nat
  hour : Nat
  minute : Nat
  second : Nat
deriving DecidableEq

def isLeap (y : Nat) : Bool :=
  y % 4 = 0 && (y % 100 ≠ 0 || y % 400 = 0)

def daysInMonth (y m : Nat) : Nat :=
  if m = 2 then (if isLeap y then 29 else 28)
  else if m = 4 ∨ m = 6 ∨ m = 9 ∨ m = 11 then 30
  else 31

def num2 (a b : Char) : Nat :=
  10 * (a.toNat - 48) + (b.toNat - 48)

def num4 (a b c d : Char) : Nat :=
  1000 * (a.toNat - 48) + 100 * (b.toNat - 48) + 10 * (c.toNat - 48) + (d.toNat - 48)

/-- `datetime.strptime(s, '%Y%m%d%H%M%S')` on the character list of
`s`: 14 digits, fields validated; any violation raises `ValueError`,
i.e. `none`. -/
def strptime14Cs (cs : List Char) : Option DateTime :=
  match cs with
  | [y1, y2, y3, y4, mo1, mo2, d1, d2, h1, h2, mi1, mi2, s1, s2] =>
    if ([y1, y2, y3, y4, mo1, mo2, d1, d2, h1, h2, mi1, mi2, s1, s2].all Char.isDigit) then
      let year := num4 y1 y2 y3 y4
      let month := num2 mo1 mo2
      let day := num2 d1 d2
      let hour := num2 h1 h2
      let minute := num2 mi1 mi2
      let second := num2 s1 s2
      if 1 ≤ year && 1 ≤ month && month ≤ 12 && 1 ≤ day && day ≤ daysInMonth year month
          && hour ≤ 23 && minute ≤ 59 && second ≤ 59 then
        some ⟨year, month, day, hour, minute, second⟩
      else
        none
    else none
  | _ => none

def strptime14 (s : String) : Option DateTime :=
  strptime14Cs s.toList

/-- The calendar day after `(y, m, d)`. -/
def nextDay (y m d : Nat) : Nat × Nat × Nat :=
  if d < daysInMonth y m then (y, m, d + 1)
  else if m < 12 then (y, m + 1, 1)
  else (y + 1, 1, 1)

/-- `pytz.utc.localize(dt).astimezone(tz_target)` for the fixed
UTC+08:00 target: add eight hours of wall-clock time, rolling the date
forward when the day boundary is crossed. -/
def shiftToTarget (dt : DateTime) : DateTime :=
  let total := dt.hour * 3600 + dt.minute * 60 + dt.second + 28800
  if total < 86400 then
    ⟨dt.year, dt.month, dt.day, total / 3600, total % 3600 / 60, total % 60⟩
  else
    let t := total - 86400
    let ymd := nextDay dt.year dt.month dt.day
    ⟨ymd.1, ymd.2.1, ymd.2.2, t / 3600, t % 3600 / 60, t % 60⟩

def pad2 (n : Nat) : String :=
  if n < 10 then "0" ++ toString n else toString n

def pad4 (n : Nat) : String :=
  if n < 10 then "000" ++ toString n
  else if n < 100 then "00" ++ toString n
  else if n < 1000 then "0" ++ toString n
  else toString n

/-- `dt.strftime('%Y%m%d%H%M%S')`. -/
def formatDT (dt : DateTime) : String :=
  pad4 dt.year ++ pad2 dt.month ++ pad2 dt.day ++ pad2 dt.hour ++ pad2 dt.minute ++ pad2 dt.second

/-- `' ' in s` for Python strings. -/
def hasSpace (cs : List Char) : Bool :=
  cs.any (fun c => c = ' ')

/-- Python `s.split(' ')` (split on every single space, empty pieces
kept): a space starts a fresh group, any other character is prepended
to the current first group.  The result list is never empty. -/
def splitSpace : List Char → List (List Char)
  | [] => [[]]
  | c :: rest =>
    if c = ' ' then [] :: splitSpace rest
    else (c :: (splitSpace rest).headD []) :: (splitSpace rest).tail

/-- Outcome of the `try` block run for one timestamp attribute value:
the attribute is rewritten (`set`), the block falls through without
touching it (`skip`), or an exception is caught and reported (`err`). -/
inductive AttrOutcome where
  | set (newVal : String)
  | skip
  | err
deriving DecidableEq

/-- The body of `convert_timezone`'s per-attribute `try` block.

* 14-character values are parsed with `%Y%m%d%H%M%S`, assumed to be
  UTC, shifted to the target offset, and written back with
  `'%Y%m%d%H%M%S %z'` (the fixed target renders `%z` as `+0800`).
* Other values containing a space are split on `' '`; the digit portion
  is parsed as naive and localized as UTC whether or not the declared
  offset is `+0000`/`UTC`, then shifted and written back with the
  literal suffix `' +0800'`.  A split that does not yield exactly two
  pieces raises `ValueError`.
* Any other value takes neither branch and is left alone.
* A shifted year beyond 9999 models the `OverflowError` that
  `astimezone` raises at the upper `datetime` bound. -/
def tryConvert (v : String) : AttrOutcome :=
  if v.length = 14 then
    match strptime14 v with
    | none => .err
    | some dt =>
      let tgt := shiftToTarget dt
      if tgt.year ≤ 9999 then .set (formatDT tgt ++ " +0800") else .err
  else if hasSpace v.toList then
    match splitSpace v.toList with
    | [timeCs, tzCs] =>
      match strptime14Cs timeCs with
      | none => .err
      | some dt =>
        let dtUtc := if tzCs = "+0000".toList ∨ tzCs = "UTC".toList then dt else dt
        let tgt := shiftToTarget dtUtc
        if tgt.year ≤ 9999 then .set (formatDT tgt ++ " +0800") else .err
    | _ => .err
  else .skip

/-- The value a timestamp attribute holds after its loop iteration:
rewritten on success, unchanged when no branch applied or the exception
was caught. -/
def processTimeValue (v : String) : String :=
  match tryConvert v with
  | .set w => w
  | _ => v

/-- `convert_timezone` prints an error for this value. -/
def timeErrReported (v : String) : Bool :=
  tryConvert v = AttrOutcome.err

def timeAttrNames : List String := ["start", "stop", "start-time", "stop-time"]

/-- One programme element's attribute dictionary after the
`for time_attr in [...]` loop: each recognized timestamp attribute is
processed independently, every other attribute is untouched. -/
def mapTimeAttrs (a : List (String × String)) : List (String × String) :=
  a.map (fun p => if p.1 ∈ timeAttrNames then (p.1, processTimeValue p.2) else p)

mutual

/-- Effect of the programme loop on a subtree: every element tagged
`programme` (the `.//programme` result set) gets its timestamp
attributes rewritten; structure and all other content are preserved. -/
def convertTree : Element → Element
  | .mk t a c =>
    .mk t (if t = "programme" then mapTimeAttrs a else a) (convertTreeL c)

def convertTreeL : List Element → List Element
  | [] => []
  | e :: es => convertTree e :: convertTreeL es

end

/-- Result of `convert_timezone`: either the converted document tree
(serialized by the script with `ET.tostring`) or the raw input passed
through unchanged, plus whether an XML parse error was printed. -/
inductive XmlData where
  | raw (s : String)
  | doc (root : Element)

structure ConvResult where
  output : XmlData
  parseErrorReported : Bool

/-- `convert_timezone(epg_xml)` with the current wall-clock time at the
target zone supplied as `now`: on `ParseError` the original string is
returned unchanged and the error printed; otherwise the root gets a
fresh `date` stamp and every programme's timestamp attributes are
rewritten. -/
def convert_timezone (input : EpgInput) (now : DateTime) : ConvResult :=
  match input.parsed with
  | none => ⟨.raw input.raw, true⟩
  | some root =>
    let r := setAttr root "date" (formatDT now)
    ⟨.doc (.mk r.tag r.attrs (convertTreeL r.children)), false⟩

/-- The four provenance attributes `merge_epg_data` sets on the fresh
`tv` root, in insertion order. -/
def provenance : List (String × String) :=
  [("source-info-name", "Merged EPG"),
   ("source-info-url", "https://github.com/9602894/JMYG"),
   ("generator-info-name", "JMYG EPG Merger"),
   ("generator-info-url", "https://github.com/9602894/JMYG")]

/-- The merged root built from two parsed documents: all `.//channel`
results of the first source, then of the second, then all
`.//programme` results of the first, then of the second, appended in
that order under a fresh `tv` element. -/
def mergeRoots (cn tw : Element) : Element :=
  .mk "tv" provenance
    (findall "channel" cn ++ findall "channel" tw
      ++ findall "programme" cn ++ findall "programme" tw)

/-- `merge_epg_data(cn_content, tw_content)`: parse both inputs; any
`ParseError` is caught and the function returns `None`. -/
def merge_epg_data (cn tw : EpgInput) : Option Element :=
  match cn.parsed, tw.parsed with
  | some c, some t => some (mergeRoots c t)
  | _, _ => none

/-- Persisted file contents: plain text or the gzip-compressed form of
a text (gzip being lossless, the compressed artifact is modelled by the
text it decompresses to). -/
inductive FileData where
  | plain (s : String)
  | gzipped (s : String)
deriving DecidableEq

/-- Decompressing a persisted artifact. -/
def gunzip : FileData → Option String
  | .gzipped s => some s
  | .plain _ => none

/-- `save_epg_data(content, filename)`: the files it writes, in order —
the plain artifact and its `.gz` sibling, both from the same `content`
argument. -/
def save_epg_data (content filename : String) : List (String × FileData) :=
  [("epg_data/" ++ filename, .plain content),
   ("epg_data/" ++ filename ++ ".gz", .gzipped content)]

/-- The merged artifact `main` publishes under `epg_merged.xml`:
`merge_epg_data` runs only when both sources were processed, and its
result is saved only when it is not `None`.  `none` means no
`epg_merged.xml` is written in this run. -/
def mainMergedArtifact (cn tw : Option EpgInput) : Option Element :=
  match cn, tw with
  | some c, some t => merge_epg_data c t
  | _, _ => none

/-! ### Concrete example documents used in witnesses and counterexamples -/

/-- A channel with id `c1` carrying opaque child content. -/
def chanCn : Element := .mk "channel" [("id", "c1")] [.mk "display-name" [] []]

def progCn : Element := .mk "programme" [("start", "20240101120000 +0000"), ("channel", "c1")] []

def docCn : Element := .mk "tv" [("generator-info-name", "src1")] [chanCn, progCn]

/-- A channel in the second source with the same id `c1`. -/
def chanTw : Element := .mk "channel" [("id", "c1")] []

def progTw : Element :=
  .mk "programme" [("start", "20240101120000"), ("stop", "20240101T130000"), ("channel", "c1")] []

def docTw : Element := .mk "tv" [] [chanTw, progTw]

/-- A well-formed first source, as delivered by the parser. -/
def cnInput : EpgInput := ⟨"<tv generator-info-name=src1>...</tv>", some docCn⟩

/-- A well-formed second source sharing channel id `c1` with `cnInput`. -/
def twInput : EpgInput := ⟨"<tv>...</tv>", some docTw⟩

/-- A truncated document on which `ET.fromstring` raises `ParseError`. -/
def badInput : EpgInput := ⟨"<tv><channel id=", none⟩

/-! ### Lemmas about the timestamp primitives -/

theorem strptime14Cs_shape {cs : List Char} {dt : DateTime}
    (h : strptime14Cs cs = some dt) :
    cs.length = 14 ∧ cs.all Char.isDigit = true := by
  unfold strptime14Cs at h
  split at h
  · next y1 y2 y3 y4 mo1 mo2 d1 d2 h1 h2 mi1 mi2 s1 s2 =>
    split at h
    · next hdig =>
      exact ⟨rfl, hdig⟩
    · exact absurd h (by simp)
  · exact absurd h (by simp)

theorem noSpace_of_digits {cs : List Char} (h : cs.all Char.isDigit = true) :
    hasSpace cs = false := by
  unfold hasSpace
  cases hs : cs.any (fun c => decide (c = ' ')) with
  | false => rfl
  | true =>
    exfalso
    rw [List.any_eq_true] at hs
    obtain ⟨c, hc, hce⟩ := hs
    have hd := List.all_eq_true.mp h c hc
    have : c = ' ' := of_decide_eq_true hce
    subst this
    exact absurd hd (by decide)

theorem splitSpace_noSpace {l : List Char} (h : hasSpace l = false) :
    splitSpace l = [l] := by
  induction l with
  | nil => rfl
  | cons c rest ih =>
    unfold hasSpace at h
    rw [List.any_cons, Bool.or_eq_false_iff] at h
    obtain ⟨h1, h2⟩ := h
    have hc : ¬ (c = ' ') := by
      intro hc; rw [hc] at h1; exact absurd h1 (by decide)
    unfold splitSpace
    rw [if_neg hc, ih h2]
    rfl

theorem splitSpace_append {pre suf : List Char} (h : hasSpace pre = false) :
    splitSpace (pre ++ ' ' :: suf) = pre :: splitSpace suf := by
  induction pre with
  | nil => simp [splitSpace]
  | cons c rest ih =>
    unfold hasSpace at h
    rw [List.any_cons, Bool.or_eq_false_iff] at h
    obtain ⟨h1, h2⟩ := h
    have hc : ¬ (c = ' ') := by
      intro hc; rw [hc] at h1; exact absurd h1 (by decide)
    show (if c = ' ' then [] :: splitSpace (rest ++ ' ' :: suf)
          else (c :: (splitSpace (rest ++ ' ' :: suf)).headD [])
            :: (splitSpace (rest ++ ' ' :: suf)).tail)
        = (c :: rest) :: splitSpace suf
    rw [if_neg hc, ih h2]
    rfl

/-! ### Lemmas about `findall` on well-formed documents -/

theorem findallAuxL_append (tg : String) (l1 l2 : List Element) :
    findallAuxL tg (l1 ++ l2) = findallAuxL tg l1 ++ findallAuxL tg l2 := by
  induction l1 with
  | nil => rfl
  | cons e es ih =>
    show findallAux tg e ++ findallAuxL tg (es ++ l2) = _
    rw [ih]
    simp [findallAuxL]

theorem findallAux_clean_pair (tg : String)
    (htg : tg = "channel" ∨ tg = "programme") :
    ∀ n : Nat,
      (∀ e : Element, sizeOf e ≤ n → cleanElem e = true → findallAux tg e = [])
      ∧ (∀ l : List Element, sizeOf l ≤ n → cleanL l = true → findallAuxL tg l = []) := by
  intro n
  induction n with
  | zero =>
    constructor
    · intro e he _
      exfalso
      cases e with
      | mk t a c => simp [Element.mk.sizeOf_spec] at he
    · intro l hl _
      exfalso
      cases l with
      | nil => simp at hl
      | cons x xs => simp at hl
  | succ n ih =>
    constructor
    · intro e he hc
      cases e with
      | mk t a c =>
        unfold cleanElem at hc
        rw [Bool.and_eq_true, Bool.and_eq_true] at hc
        obtain ⟨⟨h1, h2⟩, h3⟩ := hc
        have hsz : sizeOf c ≤ n := by
          simp [Element.mk.sizeOf_spec] at he; omega
        show (if t = tg then [Element.mk t a c] else []) ++ findallAuxL tg c = []
        rw [ih.2 c hsz h3, if_neg ?_]
        · rfl
        · intro hteq
          subst hteq
          rcases htg with h | h
          · exact absurd h (of_decide_eq_true h1)
          · exact absurd h (of_decide_eq_true h2)
    · intro l hl hc
      cases l with
      | nil => rfl
      | cons x xs =>
        unfold cleanL at hc
        rw [Bool.and_eq_true] at hc
        obtain ⟨h1, h2⟩ := hc
        have hsx : sizeOf x ≤ n := by simp at hl; omega
        have hsxs : sizeOf xs ≤ n := by simp at hl; omega
        show findallAux tg x ++ findallAuxL tg xs = []
        rw [ih.1 x hsx h1, ih.2 xs hsxs h2]
        rfl

theorem findallAuxL_clean {tg : String}
    (htg : tg = "channel" ∨ tg = "programme") {l : List Element}
    (hc : cleanL l = true) : findallAuxL tg l = [] :=
  (findallAux_clean_pair tg htg (sizeOf l)).2 l le_rfl hc

theorem findallAux_self {tg : String}
    (htg : tg = "channel" ∨ tg = "programme") {e : Element}
    (hc : cleanBelow e = true) :
    findallAux tg e = if e.tag = tg then [e] else [] := by
  cases e with
  | mk t a c =>
    unfold cleanBelow at hc
    simp only [Element.children] at hc
    show (if t = tg then [Element.mk t a c] else []) ++ findallAuxL tg c = _
    rw [findallAuxL_clean htg hc]
    simp [Element.tag]

theorem findallAuxL_filter {tg : String}
    (htg : tg = "channel" ∨ tg = "programme") :
    ∀ l : List Element,
      (∀ x ∈ l, (x.tag = "channel" ∨ x.tag = "programme") ∧ cleanBelow x = true) →
      findallAuxL tg l = l.filter (fun x => x.tag = tg) := by
  intro l
  induction l with
  | nil => intro _; rfl
  | cons e es ih =>
    intro h
    show findallAux tg e ++ findallAuxL tg es = _
    rw [findallAux_self htg (h e (List.mem_cons_self e es)).2,
      ih (fun x hx => h x (List.mem_cons_of_mem e hx)), List.filter_cons]
    by_cases he : e.tag = tg <;> simp [he]

theorem wellFormed_children {root : Element} (hwf : wellFormed root = true) :
    ∀ x ∈ root.children, (x.tag = "channel" ∨ x.tag = "programme") ∧ cleanBelow x = true := by
  intro x hx
  unfold wellFormed at hwf
  have h := List.all_eq_true.mp hwf x hx
  rw [Bool.and_eq_true, Bool.or_eq_true] at h
  obtain ⟨h1, h2⟩ := h
  refine ⟨?_, h2⟩
  rcases h1 with h | h
  · exact Or.inl (of_decide_eq_true h)
  · exact Or.inr (of_decide_eq_true h)

theorem findall_wf {tg : String} {root : Element}
    (htg : tg = "channel" ∨ tg = "programme") (hwf : wellFormed root = true) :
    findall tg root = root.children.filter (fun x => x.tag = tg) :=
  findallAuxL_filter htg root.children (wellFormed_children hwf)

theorem mem_findall_wf {tg : String} {root x : Element}
    (htg : tg = "channel" ∨ tg = "programme") (hwf : wellFormed root = true)
    (hx : x ∈ findall tg root) : x.tag = tg ∧ cleanBelow x = true := by
  rw [findall_wf htg hwf] at hx
  rw [List.mem_filter] at hx
  obtain ⟨hmem, htag⟩ := hx
  exact ⟨of_decide_eq_true htag, (wellFormed_children hwf x hmem).2⟩

theorem findallAuxL_homogeneous {tg tg' : String}
    (htg : tg = "channel" ∨ tg = "programme")
    (htg' : tg' = "channel" ∨ tg' = "programme")
    (l : List Element) (h : ∀ x ∈ l, x.tag = tg' ∧ cleanBelow x = true) :
    findallAuxL tg l = if tg' = tg then l else [] := by
  rw [findallAuxL_filter htg l
    (fun x hx => ⟨by rw [(h x hx).1]; exact htg', (h x hx).2⟩)]
  by_cases he : tg' = tg
  · subst he
    rw [if_pos rfl, List.filter_eq_self.mpr]
    intro x hx
    exact decide_eq_true ((h x hx).1)
  · rw [if_neg he, List.filter_eq_nil_iff.mpr]
    intro x hx hp
    exact he (((h x hx).1).symm.trans (of_decide_eq_true hp))

/-- The children of the merged root, as `merge_epg_data` assembles
them: channels of both sources first, then programmes of both. -/
theorem mergeRoots_children (c t : Element) :
    (mergeRoots c t).children
      = findall "channel" c ++ findall "channel" t
        ++ findall "programme" c ++ findall "programme" t := rfl

theorem findall_mergeRoots {tg : String} {c t : Element}
    (htg : tg = "channel" ∨ tg = "programme")
    (hc : wellFormed c = true) (ht : wellFormed t = true) :
    findall tg (mergeRoots c t)
      = (if "channel" = tg then findall "channel" c ++ findall "channel" t else [])
        ++ (if "programme" = tg then findall "programme" c ++ findall "programme" t else []) := by
  have hch : ("channel" : String) = "channel" ∨ ("channel" : String) = "programme" := Or.inl rfl
  have hpr : ("programme" : String) = "channel" ∨ ("programme" : String) = "programme" := Or.inr rfl
  show findallAuxL tg (findall "channel" c ++ findall "channel" t
      ++ findall "programme" c ++ findall "programme" t) = _
  rw [findallAuxL_append, findallAuxL_append, findallAuxL_append]
  rw [findallAuxL_homogeneous htg hch _ (fun x hx => mem_findall_wf hch hc hx),
    findallAuxL_homogeneous htg hch _ (fun x hx => mem_findall_wf hch ht hx),
    findallAuxL_homogeneous htg hpr _ (fun x hx => mem_findall_wf hpr hc hx),
    findallAuxL_homogeneous htg hpr _ (fun x hx => mem_findall_wf hpr ht hx)]
  by_cases h1 : ("channel" : String) = tg <;> by_cases h2 : ("programme" : String) = tg <;>
    simp [h1, h2]

/-! ### Lemmas about per-attribute processing -/

theorem processTimeValue_err {v : String} (h : tryConvert v = AttrOutcome.err) :
    processTimeValue v = v := by
  unfold processTimeValue
  rw [h]

theorem processTimeValue_skip {v : String} (h : tryConvert v = AttrOutcome.skip) :
    processTimeValue v = v := by
  unfold processTimeValue
  rw [h]

theorem find?_mapTimeAttrs (a : List (String × String)) (k : String) :
    (mapTimeAttrs a).find? (fun p => p.1 = k)
      = (a.find? (fun p => p.1 = k)).map
          (fun p => if p.1 ∈ timeAttrNames then (p.1, processTimeValue p.2) else p) := by
  induction a with
  | nil => rfl
  | cons p rest ih =>
    have hfst : (if p.1 ∈ timeAttrNames then (p.1, processTimeValue p.2) else p).1 = p.1 := by
      by_cases hmem : p.1 ∈ timeAttrNames <;> simp [hmem]
    show ((if p.1 ∈ timeAttrNames then (p.1, processTimeValue p.2) else p)
        :: mapTimeAttrs rest).find? (fun p => p.1 = k) = _
    rw [List.find?_cons, List.find?_cons]
    by_cases hk : p.1 = k
    · have h1 : (decide ((if p.1 ∈ timeAttrNames then (p.1, processTimeValue p.2) else p).1 = k))
          = true := by rw [hfst]; exact decide_eq_true hk
      rw [h1, decide_eq_true hk]
      rfl
    · have h1 : (decide ((if p.1 ∈ timeAttrNames then (p.1, processTimeValue p.2) else p).1 = k))
          = false := by rw [hfst]; exact decide_eq_false hk
      rw [h1, decide_eq_false hk, ih]

/-! ### Claim theorems -/

/-- C1, counterexample: `docCn` and `docTw` are well-formed and share
the channel id `c1`, yet the merged output contains two channels with
id `c1` — `merge_epg_data` never deduplicates channels, so the claimed
"exactly one channel with id c" is false. -/
theorem c1_duplicate_channel_counterexample :
    wellFormed docCn = true ∧ wellFormed docTw = true
    ∧ (merge_epg_data cnInput twInput).map
        (fun r => ((findall "channel" r).filter (fun e => getAttr e "id" = some "c1")).length)
      = some 2 := by
  refine ⟨by decide, by decide, by decide⟩

/-- C1, amended: merging two well-formed documents concatenates their
channel lists in source-processing order with no deduplication — a
channel id shared by both inputs therefore appears once per input
occurrence in the merged output (duplicates are kept, nothing is
discarded). -/
theorem c1_merge_keeps_duplicate_channels
    (cn tw : EpgInput) (c t : Element)
    (hc : cn.parsed = some c) (ht : tw.parsed = some t)
    (hwc : wellFormed c = true) (hwt : wellFormed t = true) :
    ∃ r, merge_epg_data cn tw = some r
      ∧ findall "channel" r = findall "channel" c ++ findall "channel" t := by
  refine ⟨mergeRoots c t, ?_, ?_⟩
  · unfold merge_epg_data
    rw [hc, ht]
  · rw [findall_mergeRoots (Or.inl rfl) hwc hwt]
    simp

/-- C1, witness for the amended theorem at the concrete duplicate-id
documents. -/
theorem c1_witness :
    ∃ r, merge_epg_data cnInput twInput = some r
      ∧ findall "channel" r = findall "channel" docCn ++ findall "channel" docTw :=
  c1_merge_keeps_duplicate_channels cnInput twInput docCn docTw rfl rfl (by decide) (by decide)

/-- C2: merging two well-formed documents concatenates their programme
lists — the merged document holds every programme of the first source
followed by every programme of the second, and its programme count is
the sum of the two inputs' programme counts (no deduplication). -/
theorem c2_merge_concatenates_programmes
    (cn tw : EpgInput) (c t : Element)
    (hc : cn.parsed = some c) (ht : tw.parsed = some t)
    (hwc : wellFormed c = true) (hwt : wellFormed t = true) :
    ∃ r, merge_epg_data cn tw = some r
      ∧ findall "programme" r = findall "programme" c ++ findall "programme" t
      ∧ (findall "programme" r).length
          = (findall "programme" c).length + (findall "programme" t).length := by
  refine ⟨mergeRoots c t, ?_, ?_, ?_⟩
  · unfold merge_epg_data
    rw [hc, ht]
  · rw [findall_mergeRoots (Or.inr rfl) hwc hwt]
    simp
  · rw [findall_mergeRoots (Or.inr rfl) hwc hwt]
    simp

/-- C2, witness at the concrete documents (one programme each). -/
theorem c2_witness :
    ∃ r, merge_epg_data cnInput twInput = some r
      ∧ findall "programme" r = findall "programme" docCn ++ findall "programme" docTw
      ∧ (findall "programme" r).length
          = (findall "programme" docCn).length + (findall "programme" docTw).length :=
  c2_merge_concatenates_programmes cnInput twInput docCn docTw rfl rfl (by decide) (by decide)

/-- C3, counterexample: the second source is well-formed (its parse
succeeded), the first is unparsable, so the merge step fails — but
`main` publishes nothing under `epg_merged.xml` (`none`), instead of
falling back to the surviving source as the claim states. -/
theorem c3_no_fallback_counterexample :
    twInput.parsed.isSome = true
    ∧ mainMergedArtifact (some badInput) (some twInput) = none :=
  ⟨rfl, rfl⟩

/-- C3, amended: when the merge step fails (an input fails to parse),
`merge_epg_data` surfaces the failure as `None` and `main` writes no
`epg_merged.xml` artifact at all; likewise when a source is missing the
merge is skipped.  There is no fallback publication of a surviving
single source under the merged-output name. -/
theorem c3_merge_failure_writes_nothing :
    (∀ c t : EpgInput, c.parsed = none ∨ t.parsed = none →
      merge_epg_data c t = none ∧ mainMergedArtifact (some c) (some t) = none)
    ∧ (∀ o : Option EpgInput,
        mainMergedArtifact none o = none ∧ mainMergedArtifact o none = none) := by
  constructor
  · intro c t h
    have hm : merge_epg_data c t = none := by
      unfold merge_epg_data
      rcases h with h | h
      · rw [h]
      · rw [h]
        cases c.parsed <;> rfl
    exact ⟨hm, hm⟩
  · intro o
    exact ⟨rfl, by cases o <;> rfl⟩

/-- C3, witness: the amended theorem applied to a concrete failed
merge (first source unparsable, second well-formed). -/
theorem c3_witness :
    merge_epg_data badInput cnInput = none
    ∧ mainMergedArtifact (some badInput) (some cnInput) = none :=
  c3_merge_failure_writes_nothing.1 badInput cnInput (Or.inl rfl)

/-- C8: whenever the merge succeeds, the merged root carries the four
fixed provenance attributes, independent of the inputs' contents. -/
theorem c8_merged_root_provenance
    (cn tw : EpgInput) (c t : Element)
    (hc : cn.parsed = some c) (ht : tw.parsed = some t) :
    ∃ r, merge_epg_data cn tw = some r
      ∧ getAttr r "source-info-name" = some "Merged EPG"
      ∧ getAttr r "source-info-url" = some "https://github.com/9602894/JMYG"
      ∧ getAttr r "generator-info-name" = some "JMYG EPG Merger"
      ∧ getAttr r "generator-info-url" = some "https://github.com/9602894/JMYG" := by
  refine ⟨mergeRoots c t, ?_, rfl, rfl, rfl, rfl⟩
  unfold merge_epg_data
  rw [hc, ht]

/-- C8, witness at the concrete documents. -/
theorem c8_witness :
    ∃ r, merge_epg_data cnInput twInput = some r
      ∧ getAttr r "source-info-name" = some "Merged EPG"
      ∧ getAttr r "source-info-url" = some "https://github.com/9602894/JMYG"
      ∧ getAttr r "generator-info-name" = some "JMYG EPG Merger"
      ∧ getAttr r "generator-info-url" = some "https://github.com/9602894/JMYG" :=
  c8_merged_root_provenance cnInput twInput docCn docTw rfl rfl

/-- C4: a timestamp value made of a parseable 14-digit portion, a
space, and any offset token (`+0000`, `UTC`, or anything else, as long
as the token itself holds no space) is parsed as naive, treated as UTC
regardless of the declared offset, shifted to the target, and written
back as `YYYYMMDDHHMMSS +0800`. -/
theorem c4_offset_suffix_treated_as_utc
    (ds tok : String) (dt : DateTime)
    (hp : strptime14 ds = some dt)
    (htok : hasSpace tok.toList = false)
    (hy : (shiftToTarget dt).year ≤ 9999) :
    tryConvert (ds ++ " " ++ tok)
        = AttrOutcome.set (formatDT (shiftToTarget dt) ++ " +0800")
    ∧ processTimeValue (ds ++ " " ++ tok) = formatDT (shiftToTarget dt) ++ " +0800" := by
  have hp' : strptime14Cs ds.toList = some dt := hp
  obtain ⟨hlen, hdig⟩ := strptime14Cs_shape hp'
  have hnos : hasSpace ds.toList = false := noSpace_of_digits hdig
  have hdslen : ds.length = 14 := hlen
  have hlenS : (ds ++ " " ++ tok).length = 14 + 1 + tok.length := by
    rw [String.length_append, String.length_append, hdslen]
    rfl
  have hne : ¬ ((ds ++ " " ++ tok).length = 14) := by
    rw [hlenS]; omega
  have hdata : (ds ++ " " ++ tok).toList = ds.toList ++ ' ' :: tok.toList := by
    show (ds ++ " " ++ tok).data = ds.data ++ ' ' :: tok.data
    rw [String.data_append, String.data_append]
    show ds.data ++ [' '] ++ tok.data = _
    rw [List.append_assoc]
    rfl
  have hsp : hasSpace (ds.toList ++ ' ' :: tok.toList) = true := by
    unfold hasSpace
    rw [List.any_append]
    simp
  have hsplit : splitSpace (ds.toList ++ ' ' :: tok.toList) = [ds.toList, tok.toList] := by
    rw [splitSpace_append hnos, splitSpace_noSpace htok]
  have h1 : tryConvert (ds ++ " " ++ tok)
      = AttrOutcome.set (formatDT (shiftToTarget dt) ++ " +0800") := by
    unfold tryConvert
    rw [if_neg hne, hdata, if_pos hsp, hsplit]
    simp only [hp', ite_self]
    rw [if_pos hy]
  exact ⟨h1, by unfold processTimeValue; rw [h1]⟩

/-- C4, witness: `20240101120000 +0000` normalizes to
`20240101200000 +0800`. -/
theorem c4_witness :
    processTimeValue ("20240101120000" ++ " " ++ "+0000") = "20240101200000 +0800" :=
  ((c4_offset_suffix_treated_as_utc "20240101120000" "+0000" ⟨2024, 1, 1, 12, 0, 0⟩
    (by decide) (by decide) (by decide)).2).trans (by decide)

/-- C5: a bare 14-digit timestamp that parses is treated as UTC,
shifted to the target offset, and written back as
`YYYYMMDDHHMMSS +0800` (the `%z` rendering of the fixed target). -/
theorem c5_naive_timestamp_assumed_utc
    (v : String) (dt : DateTime)
    (hp : strptime14 v = some dt)
    (hy : (shiftToTarget dt).year ≤ 9999) :
    tryConvert v = AttrOutcome.set (formatDT (shiftToTarget dt) ++ " +0800")
    ∧ processTimeValue v = formatDT (shiftToTarget dt) ++ " +0800" := by
  have hp' : strptime14Cs v.toList = some dt := hp
  have hlen : v.length = 14 := (strptime14Cs_shape hp').1
  have h1 : tryConvert v = AttrOutcome.set (formatDT (shiftToTarget dt) ++ " +0800") := by
    unfold tryConvert
    rw [if_pos hlen]
    simp only [hp]
    rw [if_pos hy]
  exact ⟨h1, by unfold processTimeValue; rw [h1]⟩

/-- C5, witness: `20240101120000` normalizes to
`20240101200000 +0800`. -/
theorem c5_witness :
    processTimeValue "20240101120000" = "20240101200000 +0800" :=
  ((c5_naive_timestamp_assumed_utc "20240101120000" ⟨2024, 1, 1, 12, 0, 0⟩
    (by decide) (by decide)).2).trans (by decide)

/-- C6: on input that is not well-formed XML, `convert_timezone`
returns the original string byte-for-byte and reports the parse error,
instead of raising. -/
theorem c6_malformed_input_passthrough
    (input : EpgInput) (now : DateTime) (h : input.parsed = none) :
    convert_timezone input now = ⟨XmlData.raw input.raw, true⟩ := by
  unfold convert_timezone
  rw [h]

/-- C6, witness: the truncated document comes back unchanged with the
error reported. -/
theorem c6_witness :
    convert_timezone badInput ⟨2024, 1, 1, 0, 0, 0⟩
      = ⟨XmlData.raw "<tv><channel id=", true⟩ :=
  c6_malformed_input_passthrough badInput ⟨2024, 1, 1, 0, 0, 0⟩ rfl

/-- C7: timestamp attributes of a programme are processed one at a
time: each attribute's new value depends only on its own old value, an
attribute whose conversion raises keeps its old value, and the rest of
the subtree (remaining programmes) is still processed — a single bad
attribute never fails the document. -/
theorem c7_bad_attribute_isolated
    (a : List (String × String)) (c : List Element) (k v : String)
    (hv : getAttr (Element.mk "programme" a c) k = some v) :
    getAttr (convertTree (Element.mk "programme" a c)) k
        = some (if k ∈ timeAttrNames then processTimeValue v else v)
    ∧ (tryConvert v = AttrOutcome.err →
        getAttr (convertTree (Element.mk "programme" a c)) k = some v)
    ∧ (convertTree (Element.mk "programme" a c)).children = convertTreeL c := by
  have hct : convertTree (Element.mk "programme" a c)
      = Element.mk "programme" (mapTimeAttrs a) (convertTreeL c) := by
    unfold convertTree
    rw [if_pos rfl]
  unfold getAttr at hv
  simp only [Element.attrs] at hv
  obtain ⟨p, hfind, hp2⟩ := Option.map_eq_some'.mp hv
  have hp0 := List.find?_some hfind
  have hp1 : p.1 = k := by simpa using hp0
  have hmain : getAttr (convertTree (Element.mk "programme" a c)) k
      = some (if k ∈ timeAttrNames then processTimeValue v else v) := by
    rw [hct]
    unfold getAttr
    simp only [Element.attrs]
    rw [find?_mapTimeAttrs, hfind]
    by_cases hmem : k ∈ timeAttrNames <;> simp [hmem, hp1, hp2]
  refine ⟨hmain, ?_, by rw [hct]; rfl⟩
  intro herr
  rw [hmain, processTimeValue_err herr, ite_self]

/-- C7, witness: a programme whose `start` value fails to parse (month
99) keeps that value, while a sibling programme in the document is
still converted. -/
theorem c7_witness :
    getAttr (convertTree (Element.mk "programme"
        [("start", "20249901120000"), ("channel", "c1")] [])) "start"
      = some "20249901120000"
    ∧ (convertTree (Element.mk "programme"
        [("start", "20249901120000"), ("channel", "c1")] [])).children = convertTreeL [] :=
  ⟨(c7_bad_attribute_isolated [("start", "20249901120000"), ("channel", "c1")] []
      "start" "20249901120000" rfl).2.1 (by decide),
   (c7_bad_attribute_isolated [("start", "20249901120000"), ("channel", "c1")] []
      "start" "20249901120000" rfl).2.2⟩

/-- C9: a timestamp value that is neither 14 characters long nor
contains a space takes no branch of the conversion: it is left exactly
as it was, silently, with no error reported. -/
theorem c9_unrecognized_format_untouched
    (v : String) (h1 : ¬ (v.length = 14)) (h2 : hasSpace v.toList = false) :
    tryConvert v = AttrOutcome.skip
    ∧ processTimeValue v = v
    ∧ timeErrReported v = false := by
  have ht : tryConvert v = AttrOutcome.skip := by
    unfold tryConvert
    rw [if_neg h1, h2]
    rfl
  refine ⟨ht, ?_, ?_⟩
  · unfold processTimeValue
    rw [ht]
  · unfold timeErrReported
    rw [ht]
    rfl

/-- C9, witness: a value with a `T` separator (15 characters, no
space) passes through silently. -/
theorem c9_witness :
    processTimeValue "20240101T120000" = "20240101T120000"
    ∧ timeErrReported "20240101T120000" = false :=
  ⟨(c9_unrecognized_format_untouched "20240101T120000" (by decide) (by decide)).2.1,
   (c9_unrecognized_format_untouched "20240101T120000" (by decide) (by decide)).2.2⟩

/-- C10: `save_epg_data` writes the same `content` to the plain
artifact and to its `.gz` sibling, so decompressing the compressed
artifact yields exactly the text of the uncompressed one. -/
theorem c10_save_roundtrip (content filename : String) :
    (save_epg_data content filename).lookup ("epg_data/" ++ filename)
        = some (FileData.plain content)
    ∧ (save_epg_data content filename).lookup ("epg_data/" ++ filename ++ ".gz")
        = some (FileData.gzipped content)
    ∧ ((save_epg_data content filename).lookup ("epg_data/" ++ filename ++ ".gz")).bind gunzip
        = some content := by
  have hne : ("epg_data/" ++ filename) ≠ ("epg_data/" ++ filename ++ ".gz") := by
    intro h
    have hl := congrArg String.length h
    rw [String.length_append ("epg_data/" ++ filename) ".gz"] at hl
    have h3 : (".gz" : String).length = 3 := rfl
    omega
  have h2 : (save_epg_data content filename).lookup ("epg_data/" ++ filename ++ ".gz")
      = some (FileData.gzipped content) := by
    show (("epg_data/" ++ filename, FileData.plain content)
        :: [("epg_data/" ++ filename ++ ".gz", FileData.gzipped content)]).lookup
          ("epg_data/" ++ filename ++ ".gz") = _
    rw [List.lookup_cons]
    rw [show (("epg_data/" ++ filename ++ ".gz") == ("epg_data/" ++ filename)) = false from
      beq_eq_false_iff_ne.mpr (Ne.symm hne)]
    exact List.lookup_cons_self
  exact ⟨List.lookup_cons_self, h2, by rw [h2]; rfl⟩
